import Mathlib

/-!
Verification of the face-detection repository's core pipeline
(`src/services/face_recognition_service.py`) against its specification.

The external face-detection / embedding library (`face_recognition`) and the
video decoder (`cv2`) are black-box capabilities per the spec; they are
modelled as inputs: a video capture carries the decoded outcomes of its
frames, and the Euclidean-distance computation of the external library is a
function parameter `dist`.  Python floats are modelled as exact rationals.
Exceptions are modelled with `Option` (`none` = an exception was raised and
propagated to the enclosing handler).
-/

/-- An embedding: a fixed-length numeric vector produced by the external
extractor.  The code never inspects the length, so we model it as a list of
rationals. -/
abbrev Emb := List ℚ

/-- One entry of the person map (a JSON object that may lack either key,
mirroring `person_info.get('personId', '')` / `person_info.get('name', '')`). -/
structure PersonInfo where
  personId : Option String
  name : Option String
deriving DecidableEq

/-- The person map: string-keyed mapping from target index to identity
metadata, modelled as an association list (first binding wins, as in a
Python dict lookup on distinct keys). -/
abbrev PersonMap := List (String × PersonInfo)

/-- `person_map.get(str(i), {})` from line 81 of the source. -/
def personMapGet (pm : PersonMap) (k : String) : PersonInfo :=
  (pm.lookup k).getD ⟨none, none⟩

/-- The record appended to `results` (lines 84-92 of the source). -/
structure MatchEvent where
  timestamp : ℚ
  timestampFormatted : String
  confidence : ℚ
  distance : ℚ
  personId : String
  personName : String
  frame : String
deriving DecidableEq

/-- Division of rationals, written out on numerator and denominator so that
it evaluates by kernel reduction (`Rat.div_def'` below shows it is ordinary
division on ℚ).  Models Python float division away from a zero divisor;
division by zero raises in Python and is guarded explicitly at each use
site of this model. -/
def pyDiv (a b : ℚ) : ℚ :=
  Rat.divInt (a.num * b.den) (a.den * b.num)

/-- Subtraction of rationals, written out on numerator and denominator so
that it evaluates by kernel reduction (`Rat.sub_def'` below shows it is
ordinary subtraction on ℚ). -/
def pySub (a b : ℚ) : ℚ :=
  mkRat (a.num * b.den - b.num * a.den) (a.den * b.den)

/-- Python `int(q)` on a float: truncation toward zero.  On a rational in
lowest terms with positive denominator this is the T-division of numerator
by denominator. -/
def pyInt (q : ℚ) : ℤ :=
  q.num.tdiv q.den

/-- The fixed match threshold `0.45` of source line 80. -/
def threshold : ℚ := mkRat 45 100

/-- Zero-padding of a natural number to a minimum width, as Python
`f"{n:0wd}"`. -/
def padZeros (w : ℕ) (n : ℕ) : String :=
  let s := toString n
  String.mk (List.replicate (w - s.length) '0') ++ s

/-- `format_time` (source lines 112-116): `minutes = int(seconds // 60)`,
`seconds = int(seconds % 60)`, rendered `f"{minutes}:{seconds:02d}"`.
Python float `//` is the floor and `%` returns `q - 60*⌊q/60⌋ ∈ [0, 60)`,
on which `int` truncation agrees with the floor. -/
def format_time (q : ℚ) : String :=
  let minutes : ℤ := (pyDiv q 60).floor
  let secs : ℤ := (pySub q ((60 * minutes : ℤ) : ℚ)).floor
  toString minutes ++ ":" ++ padZeros 2 secs.toNat

/-- `frame_skip = max(1, int(video_fps / fps))` (source line 49), as a ℕ
(the Python value is an int ≥ 1). The caller guards `fps ≠ 0`
(division by zero raises before this value exists). -/
def frame_skip_calc (videoFps fps : ℚ) : ℕ :=
  (max 1 (pyInt (pyDiv videoFps fps))).toNat

/-- The dictionary built at source lines 84-92 for target index `i` at
distance `d` on frame `frameNumber`. -/
def mkMatchEvent (pm : PersonMap) (videoFps : ℚ) (frameNumber : ℕ)
    (i : ℕ) (d : ℚ) : MatchEvent :=
  let person_info := personMapGet pm (toString i)
  let timestamp : ℚ := pyDiv (frameNumber : ℚ) videoFps
  { timestamp := timestamp
    timestampFormatted := format_time timestamp
    confidence := max 0 (pySub 1 d)
    distance := d
    personId := person_info.personId.getD ""
    personName := person_info.name.getD ""
    frame := "frame-" ++ padZeros 4 frameNumber }

/-- The double comparison loop of one sampled frame (source lines 74-95):
for each detected face embedding, for each target index `i` in index order,
compute the distance and append a match event when it is `< 0.45`.
`dist` is the external `face_recognition.face_distance` capability. -/
def frame_matches (dist : Emb → Emb → ℚ) (targets : List Emb)
    (pm : PersonMap) (videoFps : ℚ) (frameNumber : ℕ)
    (faces : List Emb) : List MatchEvent :=
  faces.flatMap fun face =>
    targets.enum.filterMap fun p =>
      let d := dist face p.2
      if d < threshold then some (mkMatchEvent pm videoFps frameNumber p.1 d)
      else none

/-- Decoded outcome of one `video.read()` frame once sampled: either the
external detector+encoder yields a list of face embeddings, or the
conversion/detection raises. -/
inductive FrameData where
  | ok (faces : List Emb)
  | fail
deriving DecidableEq

/-- The faces the detector reports for a frame (`[]` for a raising frame,
which never reaches the comparison loop). -/
def facesOf : FrameData → List Emb
  | .ok faces => faces
  | .fail => []

/-- The `cv2.VideoCapture` handle: whether it opened, the metadata the code
reads, and the sequence of frames `video.read()` yields before returning
`ret = False`. -/
structure VideoCapture where
  opened : Bool
  totalFrames : ℤ
  videoFps : ℚ
  frames : List FrameData

/-- Observable outcome of one `process_video` call: the returned results,
the frame indices that entered the sampled branch (line 63), and whether
`video.release()` was called before returning. -/
structure RunOutcome where
  results : List MatchEvent
  sampled : List ℕ
  released : Bool
deriving DecidableEq

/-- The `while True` loop of source lines 57-102, specialised to the data
this model carries.  Returns the sampled frame indices together with
`some results` on normal exhaustion, or `none` when an in-loop exception
propagates (timestamp division by zero when `videoFps = 0`, line 64, or a
decode/detector failure, lines 67-71).  `frame_number` starts at 0 and
increments on every frame read. -/
def run_loop (dist : Emb → Emb → ℚ) (targets : List Emb) (pm : PersonMap)
    (videoFps : ℚ) (frameSkip : ℕ) :
    List FrameData → ℕ → List ℕ × Option (List MatchEvent)
  | [], _ => ([], some [])
  | f :: rest, n =>
    if n % frameSkip = 0 then
      -- sampled frame: the timestamp `n / videoFps` is computed first
      if videoFps = 0 then ([n], none)
      else
        match f with
        | .fail => ([n], none)
        | .ok faces =>
          let r := run_loop dist targets pm videoFps frameSkip rest (n + 1)
          (n :: r.1,
           r.2.map fun evs =>
             frame_matches dist targets pm videoFps n faces ++ evs)
    else
      run_loop dist targets pm videoFps frameSkip rest (n + 1)

/-- `process_video` (source lines 33-110).  A capture that is not opened
raises (line 42) into the catch-all handler; a zero sampling rate raises
`ZeroDivisionError` at line 49; otherwise the loop runs and `release()` is
called only on the normal-exhaustion path (line 104) — the `except` block
of lines 108-110 returns `[]` without releasing. -/
def process_video (dist : Emb → Emb → ℚ) (video : VideoCapture)
    (targets : List Emb) (pm : PersonMap) (fps : ℚ) : RunOutcome :=
  if video.opened = false then
    { results := [], sampled := [], released := false }
  else if fps = 0 then
    { results := [], sampled := [], released := false }
  else
    let frameSkip := frame_skip_calc video.videoFps fps
    let r := run_loop dist targets pm video.videoFps frameSkip video.frames 0
    { results := r.2.getD []
      sampled := r.1
      released := r.2.isSome }

/-- Outcome of `face_recognition.load_image_file` + `face_encodings` on one
image: either the pipeline raises, or it reports a (possibly empty) list of
face encodings. -/
inductive ImageResult where
  | loadFail
  | faces (encs : List Emb)
deriving DecidableEq

/-- `extract_face_encoding` (source lines 16-31): first encoding when at
least one face is found, `None` on zero faces, and `None` (with the error
logged) when loading/processing raises. -/
def extract_face_encoding : ImageResult → Option Emb
  | .loadFail => none
  | .faces encs => encs.head?

/-! ### Concrete instances used as test fixtures -/

/-- One-dimensional Euclidean distance, |x - y| written with the computable
subtraction (`dist1_eq` below shows it equals the absolute difference):
a concrete instance of the external distance capability. -/
def dist1 (a b : Emb) : ℚ :=
  if a.headD 0 ≤ b.headD 0 then pySub (b.headD 0) (a.headD 0)
  else pySub (a.headD 0) (b.headD 0)

/-- A distance capability reporting distance 0 for every pair. -/
def dist0 : Emb → Emb → ℚ := fun _ _ => 0

/-- An opened one-frame stream whose only (sampled) frame raises in the
detector. -/
def leakVideo : VideoCapture := ⟨true, 1, 1, [.fail]⟩

/-- A capture that failed to open (non-existent video source). -/
def unopenedVideo : VideoCapture := ⟨false, 0, 25, []⟩

/-- Person map for the 100-frame scenario: target 0 is Alice, target 1 is
Bob. -/
def pmC8 : PersonMap :=
  [("0", ⟨some "p0", some "Alice"⟩), ("1", ⟨some "p7", some "Bob"⟩)]

/-- Two 1-dimensional target embeddings: target 0 at 1, target 1 at 0.3. -/
def targetsC8 : List Emb := [[1], [mkRat 3 10]]

/-- 100 frames; only frame 40 contains a face (embedding 0, so at distance
0.3 from target 1 and distance 1 from target 0). -/
def framesC8 : List FrameData :=
  List.replicate 40 (.ok []) ++ [.ok [[0]]] ++ List.replicate 59 (.ok [])

/-- A 100-frame 10-fps opened stream with the single face at frame 40. -/
def videoC8 : VideoCapture := ⟨true, 100, 10, framesC8⟩

/-- A two-frame stream whose first frame has a matching face and whose
second frame raises. -/
def abortVideo : VideoCapture := ⟨true, 2, 1, [.ok [[0]], .fail]⟩

/-- A one-frame stream reporting a native frame rate of 0. -/
def zeroFpsVideo : VideoCapture := ⟨true, 1, 0, [.ok []]⟩

/-! ### Basic lemmas relating the computable arithmetic to ℚ -/

theorem pyDiv_eq (a b : ℚ) : pyDiv a b = a / b :=
  (Rat.div_def' a b).symm

theorem pySub_eq (a b : ℚ) : pySub a b = a - b :=
  (Rat.sub_def' a b).symm

theorem threshold_eq : threshold = 45 / 100 := by
  rw [threshold, Rat.mkRat_eq_divInt, Rat.divInt_eq_div]
  norm_num

theorem ratFloor_eq (q : ℚ) : q.floor = ⌊q⌋ := by
  rw [Rat.floor_def, Rat.floor_def']

theorem pyInt_eq_floor {q : ℚ} (h : 0 ≤ q) : pyInt q = ⌊q⌋ := by
  rw [pyInt, Rat.floor_def]
  exact Int.tdiv_eq_ediv (Rat.num_nonneg.mpr h) (Int.natCast_nonneg _)

theorem mkRat_eq_div (n : ℤ) (d : ℕ) : (mkRat n d : ℚ) = (n : ℚ) / (d : ℚ) := by
  rw [Rat.mkRat_eq_divInt, Rat.divInt_eq_div]
  norm_num

theorem dist1_eq (a b : Emb) : dist1 a b = |a.headD 0 - b.headD 0| := by
  rw [dist1]
  by_cases h : a.headD 0 ≤ b.headD 0
  · rw [if_pos h, pySub_eq, abs_sub_comm, abs_of_nonneg (sub_nonneg.mpr h)]
  · rw [if_neg h, pySub_eq,
      abs_of_nonneg (sub_nonneg.mpr (le_of_not_le h))]

/-- The event record of source lines 84-92 written with the standard ℚ
operations, as the spec states it. -/
theorem mkMatchEvent_eq (pm : PersonMap) (vfps : ℚ) (n i : ℕ) (d : ℚ) :
    mkMatchEvent pm vfps n i d =
    { timestamp := (n : ℚ) / vfps
      timestampFormatted := format_time ((n : ℚ) / vfps)
      confidence := max 0 (1 - d)
      distance := d
      personId := (personMapGet pm (toString i)).personId.getD ""
      personName := (personMapGet pm (toString i)).name.getD ""
      frame := "frame-" ++ padZeros 4 n } := by
  simp [mkMatchEvent, pyDiv_eq, pySub_eq]

theorem facesOf_ok (faces : List Emb) : facesOf (.ok faces) = faces := rfl

theorem facesOf_fail : facesOf .fail = [] := rfl

/-! ### Structural lemmas about the sampled-frame comparison loop -/

theorem mem_frame_matches {dist : Emb → Emb → ℚ} {targets : List Emb}
    {pm : PersonMap} {vfps : ℚ} {n : ℕ} {faces : List Emb} {e : MatchEvent} :
    e ∈ frame_matches dist targets pm vfps n faces ↔
    ∃ face ∈ faces, ∃ i, i < targets.length ∧
      dist face (targets.getD i []) < threshold ∧
      e = mkMatchEvent pm vfps n i (dist face (targets.getD i [])) := by
  simp only [frame_matches, List.mem_flatMap, List.mem_filterMap]
  constructor
  · rintro ⟨face, hface, ⟨i, t⟩, hmem, heq⟩
    rw [List.mk_mem_enum_iff_getElem?] at hmem
    have hlt : i < targets.length := by
      by_contra hge
      simp [List.getElem?_eq_none (Nat.le_of_not_lt hge)] at hmem
    have ht : targets.getD i [] = t := by
      rw [List.getD_eq_getElem?_getD, hmem, Option.getD_some]
    refine ⟨face, hface, i, hlt, ?_⟩
    rw [ht]
    by_cases hd : dist face t < threshold
    · rw [if_pos hd] at heq
      exact ⟨hd, (Option.some_inj.mp heq).symm⟩
    · rw [if_neg hd] at heq
      exact absurd heq (Option.noConfusion)
  · rintro ⟨face, hface, i, hlt, hd, he⟩
    refine ⟨face, hface, ⟨i, targets.getD i []⟩, ?_, ?_⟩
    · rw [List.mk_mem_enum_iff_getElem?, List.getD_eq_getElem?_getD,
        List.getElem?_eq_getElem hlt, Option.getD_some]
    · rw [if_pos hd, he]

theorem run_loop_sampled_mod (dist : Emb → Emb → ℚ) (targets : List Emb)
    (pm : PersonMap) (vfps : ℚ) (k : ℕ) (frames : List FrameData) (n : ℕ) :
    ∀ m ∈ (run_loop dist targets pm vfps k frames n).1, m % k = 0 := by
  induction frames generalizing n with
  | nil => simp [run_loop]
  | cons f rest ih =>
    intro m hm
    by_cases h1 : n % k = 0
    · by_cases h2 : vfps = 0
      · simp only [run_loop, if_pos h1, if_pos h2, List.mem_singleton] at hm
        exact hm ▸ h1
      · cases f with
        | fail =>
          simp only [run_loop, if_pos h1, if_neg h2, List.mem_singleton] at hm
          exact hm ▸ h1
        | ok faces =>
          simp only [run_loop, if_pos h1, if_neg h2, List.mem_cons] at hm
          rcases hm with rfl | hm
          · exact h1
          · exact ih (n + 1) m hm
    · simp only [run_loop, if_neg h1] at hm
      exact ih (n + 1) m hm

theorem run_loop_sampled_ge (dist : Emb → Emb → ℚ) (targets : List Emb)
    (pm : PersonMap) (vfps : ℚ) (k : ℕ) (frames : List FrameData) (n : ℕ) :
    ∀ m ∈ (run_loop dist targets pm vfps k frames n).1, n ≤ m := by
  induction frames generalizing n with
  | nil => simp [run_loop]
  | cons f rest ih =>
    intro m hm
    by_cases h1 : n % k = 0
    · by_cases h2 : vfps = 0
      · simp only [run_loop, if_pos h1, if_pos h2, List.mem_singleton] at hm
        exact hm ▸ le_refl n
      · cases f with
        | fail =>
          simp only [run_loop, if_pos h1, if_neg h2, List.mem_singleton] at hm
          exact hm ▸ le_refl n
        | ok faces =>
          simp only [run_loop, if_pos h1, if_neg h2, List.mem_cons] at hm
          rcases hm with rfl | hm
          · exact le_refl m
          · exact le_of_lt (lt_of_lt_of_le (Nat.lt_succ_self n) (ih (n + 1) m hm))
    · simp only [run_loop, if_neg h1] at hm
      exact le_of_lt (lt_of_lt_of_le (Nat.lt_succ_self n) (ih (n + 1) m hm))

theorem frame_matches_timestamp {dist : Emb → Emb → ℚ} {targets : List Emb}
    {pm : PersonMap} {vfps : ℚ} {n : ℕ} {faces : List Emb} {e : MatchEvent}
    (h : e ∈ frame_matches dist targets pm vfps n faces) :
    e.timestamp = (n : ℚ) / vfps := by
  obtain ⟨face, -, i, -, -, rfl⟩ := mem_frame_matches.mp h
  simp [mkMatchEvent, pyDiv_eq]

theorem div_mono_num {vfps : ℚ} (hv : 0 ≤ vfps) {a b : ℕ} (h : a ≤ b) :
    (a : ℚ) / vfps ≤ (b : ℚ) / vfps := by
  rw [div_eq_mul_inv, div_eq_mul_inv]
  exact mul_le_mul_of_nonneg_right (by exact_mod_cast h) (inv_nonneg.mpr hv)

theorem run_loop_timestamp_lb (dist : Emb → Emb → ℚ) (targets : List Emb)
    (pm : PersonMap) {vfps : ℚ} (hv : 0 ≤ vfps) (k : ℕ)
    (frames : List FrameData) (n : ℕ) (evs : List MatchEvent)
    (h : (run_loop dist targets pm vfps k frames n).2 = some evs) :
    ∀ e ∈ evs, (n : ℚ) / vfps ≤ e.timestamp := by
  induction frames generalizing n evs with
  | nil =>
    simp only [run_loop, Option.some_inj] at h
    subst h; simp
  | cons f rest ih =>
    intro e he
    by_cases h1 : n % k = 0
    · by_cases h2 : vfps = 0
      · simp only [run_loop, if_pos h1, if_pos h2] at h
        exact absurd h (Option.noConfusion)
      · cases f with
        | fail =>
          simp only [run_loop, if_pos h1, if_neg h2] at h
          exact absurd h (Option.noConfusion)
        | ok faces =>
          simp only [run_loop, if_pos h1, if_neg h2, Option.map_eq_some'] at h
          obtain ⟨evs', hsome, rfl⟩ := h
          rcases List.mem_append.mp he with hl | hr
          · exact le_of_eq (frame_matches_timestamp hl).symm
          · exact le_trans (div_mono_num hv (Nat.le_succ n)) (ih (n + 1) evs' hsome e hr)
    · simp only [run_loop, if_neg h1] at h
      exact le_trans (div_mono_num hv (Nat.le_succ n)) (ih (n + 1) evs h e he)

theorem run_loop_pairwise (dist : Emb → Emb → ℚ) (targets : List Emb)
    (pm : PersonMap) {vfps : ℚ} (hv : 0 ≤ vfps) (k : ℕ)
    (frames : List FrameData) (n : ℕ) (evs : List MatchEvent)
    (h : (run_loop dist targets pm vfps k frames n).2 = some evs) :
    evs.Pairwise (fun a b => a.timestamp ≤ b.timestamp) := by
  induction frames generalizing n evs with
  | nil =>
    simp only [run_loop, Option.some_inj] at h
    subst h; exact List.Pairwise.nil
  | cons f rest ih =>
    by_cases h1 : n % k = 0
    · by_cases h2 : vfps = 0
      · simp only [run_loop, if_pos h1, if_pos h2] at h
        exact absurd h (Option.noConfusion)
      · cases f with
        | fail =>
          simp only [run_loop, if_pos h1, if_neg h2] at h
          exact absurd h (Option.noConfusion)
        | ok faces =>
          simp only [run_loop, if_pos h1, if_neg h2, Option.map_eq_some'] at h
          obtain ⟨evs', hsome, rfl⟩ := h
          rw [List.pairwise_append]
          refine ⟨?_, ih (n + 1) evs' hsome, ?_⟩
          · refine List.pairwise_of_forall_mem_list ?_
            intro a ha b hb
            rw [frame_matches_timestamp ha, frame_matches_timestamp hb]
          · intro a ha b hb
            rw [frame_matches_timestamp ha]
            exact le_trans (div_mono_num hv (Nat.le_succ n))
              (run_loop_timestamp_lb dist targets pm hv k rest (n + 1) evs' hsome b hb)
    · simp only [run_loop, if_neg h1] at h
      exact ih (n + 1) evs h

theorem run_loop_flatten (dist : Emb → Emb → ℚ) (targets : List Emb)
    (pm : PersonMap) (vfps : ℚ) (k : ℕ)
    (frames : List FrameData) (n : ℕ) (evs : List MatchEvent)
    (h : (run_loop dist targets pm vfps k frames n).2 = some evs) :
    evs = (run_loop dist targets pm vfps k frames n).1.flatMap
      (fun m => frame_matches dist targets pm vfps m
        (facesOf (frames.getD (m - n) .fail))) := by
  induction frames generalizing n evs with
  | nil =>
    simp only [run_loop, Option.some_inj] at h
    subst h; simp [run_loop]
  | cons f rest ih =>
    by_cases h1 : n % k = 0
    · by_cases h2 : vfps = 0
      · simp only [run_loop, if_pos h1, if_pos h2] at h
        exact absurd h (Option.noConfusion)
      · cases f with
        | fail =>
          simp only [run_loop, if_pos h1, if_neg h2] at h
          exact absurd h (Option.noConfusion)
        | ok faces =>
          simp only [run_loop, if_pos h1, if_neg h2, Option.map_eq_some'] at h
          obtain ⟨evs', hsome, rfl⟩ := h
          simp only [run_loop, if_pos h1, if_neg h2, List.flatMap_cons,
            Nat.sub_self, List.getD_cons_zero, facesOf_ok]
          congr 1
          rw [ih (n + 1) evs' hsome]
          refine List.flatMap_congr ?_
          intro m hm
          have hge : n + 1 ≤ m :=
            run_loop_sampled_ge dist targets pm vfps k rest (n + 1) m hm
          have hsub : m - n = (m - (n + 1)) + 1 := by omega
          rw [hsub, List.getD_cons_succ]
    · simp only [run_loop, if_neg h1] at h ⊢
      rw [ih (n + 1) evs h]
      refine List.flatMap_congr ?_
      intro m hm
      have hge : n + 1 ≤ m :=
        run_loop_sampled_ge dist targets pm vfps k rest (n + 1) m hm
      have hsub : m - n = (m - (n + 1)) + 1 := by omega
      rw [hsub, List.getD_cons_succ]

/-! ### Claim theorems -/

/-- Claim C1: for every sampled frame, detected face embedding and target
index `i` (in index order), a match event is emitted iff the Euclidean
distance reported by the external capability is strictly below 0.45, and
the emitted event has `confidence = max 0 (1 - distance)`, identity looked
up from the person map at key `str(i)` (missing keys yield empty strings),
and frame label `"frame-"` plus the frame index zero-padded to 4 digits. -/
theorem matchEvent_emitted_iff (dist : Emb → Emb → ℚ) (targets : List Emb)
    (pm : PersonMap) (vfps : ℚ) (n : ℕ) (faces : List Emb) (e : MatchEvent) :
    e ∈ frame_matches dist targets pm vfps n faces ↔
    ∃ face ∈ faces, ∃ i, i < targets.length ∧
      dist face (targets.getD i []) < 45 / 100 ∧
      e = { timestamp := (n : ℚ) / vfps
            timestampFormatted := format_time ((n : ℚ) / vfps)
            confidence := max 0 (1 - dist face (targets.getD i []))
            distance := dist face (targets.getD i [])
            personId := (personMapGet pm (toString i)).personId.getD ""
            personName := (personMapGet pm (toString i)).name.getD ""
            frame := "frame-" ++ padZeros 4 n } := by
  simp only [mem_frame_matches, threshold_eq, mkMatchEvent_eq]

/-- Claim C2 counterexample: at a native rate of 29 fps and sampling rate
10 Hz the code computes `frame_skip = 2` (truncation of 2.9), while
rounding to the nearest integer as claimed would give 3. -/
theorem frame_skip_not_rounded :
    frame_skip_calc 29 10 = 2 ∧ (max 1 (round ((29 : ℚ) / 10))).toNat = 3 := by
  constructor
  · decide
  · have h : round ((29 : ℚ) / 10) = 3 := by norm_num [round_eq]
    rw [h]
    decide

/-- Claim C2 (amended): the frame-skip interval is
`max(1, trunc(nativeFrameRate / samplingRateHz))`, where `trunc` is Python
`int` truncation; for a non-negative quotient this is the floor of the
quotient, not rounding to nearest. -/
theorem frame_skip_floor (videoFps fps : ℚ) (h : 0 ≤ videoFps / fps) :
    (frame_skip_calc videoFps fps : ℤ) = max 1 ⌊videoFps / fps⌋ := by
  rw [frame_skip_calc, pyDiv_eq, pyInt_eq_floor h]
  exact Int.toNat_of_nonneg (le_trans zero_le_one (le_max_left _ _))

theorem frame_skip_floor_witness :
    0 ≤ (29 : ℚ) / 10 ∧ (frame_skip_calc 29 10 : ℤ) = max 1 ⌊(29 : ℚ) / 10⌋ :=
  ⟨by norm_num, frame_skip_floor 29 10 (by norm_num)⟩

/-- Claim C3: every frame index that enters the sampled branch is an exact
multiple of the computed frame skip, and the frame skip is at least 1. -/
theorem sampled_frames_multiples (dist : Emb → Emb → ℚ) (video : VideoCapture)
    (targets : List Emb) (pm : PersonMap) (fps : ℚ) :
    1 ≤ frame_skip_calc video.videoFps fps ∧
    ∀ m ∈ (process_video dist video targets pm fps).sampled,
      m % frame_skip_calc video.videoFps fps = 0 := by
  constructor
  · rw [frame_skip_calc]
    have h := le_max_left (1 : ℤ) (pyInt (pyDiv video.videoFps fps))
    omega
  · intro m hm
    by_cases ho : video.opened = false
    · simp [process_video, ho] at hm
    · by_cases hf : fps = 0
      · simp [process_video, ho, hf] at hm
      · simp only [process_video, if_neg ho, if_neg hf] at hm
        exact run_loop_sampled_mod dist targets pm video.videoFps
          (frame_skip_calc video.videoFps fps) video.frames 0 m hm

theorem sampled_frames_multiples_witness :
    1 ≤ frame_skip_calc videoC8.videoFps (mkRat 1 2) ∧
    ∀ m ∈ (process_video dist1 videoC8 targetsC8 pmC8 (mkRat 1 2)).sampled,
      m % frame_skip_calc videoC8.videoFps (mkRat 1 2) = 0 :=
  sampled_frames_multiples dist1 videoC8 targetsC8 pmC8 (mkRat 1 2)

/-- Claim C4: the results of a run are ordered by non-decreasing timestamp;
moreover on normal completion they are exactly the per-sampled-frame match
lists concatenated in ascending frame order (within a frame: detection
order, then target index order, by the structure of `frame_matches`). -/
theorem results_ordered (dist : Emb → Emb → ℚ) (video : VideoCapture)
    (targets : List Emb) (pm : PersonMap) (fps : ℚ)
    (hv : 0 ≤ video.videoFps) :
    (process_video dist video targets pm fps).results.Pairwise
      (fun a b => a.timestamp ≤ b.timestamp) ∧
    ((process_video dist video targets pm fps).released = true →
      (process_video dist video targets pm fps).results =
        (process_video dist video targets pm fps).sampled.flatMap
          (fun m => frame_matches dist targets pm video.videoFps m
            (facesOf (video.frames.getD m .fail)))) := by
  by_cases ho : video.opened = false
  · simp [process_video, ho]
  · by_cases hf : fps = 0
    · simp [process_video, ho, hf]
    · cases hr : (run_loop dist targets pm video.videoFps
        (frame_skip_calc video.videoFps fps) video.frames 0).2 with
      | none =>
        constructor
        · simp [process_video, ho, hf, hr]
        · intro hrel
          simp [process_video, ho, hf, hr] at hrel
      | some evs =>
        constructor
        · simp only [process_video, if_neg ho, if_neg hf, hr, Option.getD_some]
          exact run_loop_pairwise dist targets pm hv _ video.frames 0 evs hr
        · intro _
          simp only [process_video, if_neg ho, if_neg hf, hr, Option.getD_some]
          have h := run_loop_flatten dist targets pm video.videoFps
            (frame_skip_calc video.videoFps fps) video.frames 0 evs hr
          simpa using h

theorem results_ordered_witness :
    0 ≤ videoC8.videoFps ∧
    ((process_video dist1 videoC8 targetsC8 pmC8 (mkRat 1 2)).results.Pairwise
      (fun a b => a.timestamp ≤ b.timestamp) ∧
    ((process_video dist1 videoC8 targetsC8 pmC8 (mkRat 1 2)).released = true →
      (process_video dist1 videoC8 targetsC8 pmC8 (mkRat 1 2)).results =
        (process_video dist1 videoC8 targetsC8 pmC8 (mkRat 1 2)).sampled.flatMap
          (fun m => frame_matches dist1 targetsC8 pmC8 videoC8.videoFps m
            (facesOf (videoC8.frames.getD m .fail))))) :=
  ⟨by decide, results_ordered dist1 videoC8 targetsC8 pmC8 (mkRat 1 2) (by decide)⟩

/-- Claim C5: an exception inside the frame loop (modelled by the loop
returning `none`) makes the whole call return an empty result list:
everything accumulated before the failure is discarded. -/
theorem abort_discards_results (dist : Emb → Emb → ℚ) (video : VideoCapture)
    (targets : List Emb) (pm : PersonMap) (fps : ℚ)
    (hraise : (run_loop dist targets pm video.videoFps
      (frame_skip_calc video.videoFps fps) video.frames 0).2 = none) :
    (process_video dist video targets pm fps).results = [] := by
  by_cases ho : video.opened = false
  · simp [process_video, ho]
  · by_cases hf : fps = 0
    · simp [process_video, ho, hf]
    · simp [process_video, ho, hf, hraise]

theorem abort_discards_results_witness :
    (run_loop dist1 [[0]] [] abortVideo.videoFps
      (frame_skip_calc abortVideo.videoFps 1) abortVideo.frames 0).2 = none ∧
    frame_matches dist1 [[0]] [] abortVideo.videoFps 0 [[0]] ≠ [] ∧
    (process_video dist1 abortVideo [[0]] [] 1).results = [] :=
  ⟨by decide, by decide,
    abort_discards_results dist1 abortVideo [[0]] [] 1 (by decide)⟩

/-- Claim C6 is violated by the code: on the mid-stream-abort exit path the
`except` handler of lines 108-110 returns without calling
`video.release()`, so an opened stream is left unreleased.  (On the
failed-to-open path the result is empty and no opened stream exists, as the
claim says.)  This theorem evaluates the code at the failing input. -/
theorem release_skipped_on_abort :
    leakVideo.opened = true ∧
    (process_video dist0 leakVideo [] [] 1).released = false ∧
    (process_video dist0 unopenedVideo [] [] 1).results = [] ∧
    (process_video dist0 unopenedVideo [] [] 1).released = false := by
  decide

/-- Claim C7: when the person map lacks an entry for the matched target
index, the match event is still emitted, with empty personId and
personName. -/
theorem missing_identity_empty (dist : Emb → Emb → ℚ) (targets : List Emb)
    (pm : PersonMap) (vfps : ℚ) (n : ℕ) (faces : List Emb) (face : Emb)
    (i : ℕ) (hface : face ∈ faces) (hi : i < targets.length)
    (hmiss : pm.lookup (toString i) = none)
    (hd : dist face (targets.getD i []) < 45 / 100) :
    ∃ e ∈ frame_matches dist targets pm vfps n faces,
      e.personId = "" ∧ e.personName = "" ∧
      e.distance = dist face (targets.getD i []) := by
  refine ⟨mkMatchEvent pm vfps n i (dist face (targets.getD i [])),
    mem_frame_matches.mpr ⟨face, hface, i, hi, by rwa [threshold_eq], rfl⟩,
    ?_, ?_, rfl⟩
  · simp [mkMatchEvent, personMapGet, hmiss]
  · simp [mkMatchEvent, personMapGet, hmiss]

theorem missing_identity_empty_witness :
    ([0] : Emb) ∈ ([[0]] : List Emb) ∧ 0 < ([[mkRat 3 10]] : List Emb).length ∧
    (([] : PersonMap).lookup (toString 0) = none) ∧
    dist1 [0] (([[mkRat 3 10]] : List Emb).getD 0 []) < 45 / 100 ∧
    ∃ e ∈ frame_matches dist1 [[mkRat 3 10]] [] 10 0 [[0]],
      e.personId = "" ∧ e.personName = "" ∧
      e.distance = dist1 [0] (([[mkRat 3 10]] : List Emb).getD 0 []) :=
  ⟨by decide, by decide, by decide,
    by rw [← threshold_eq]; decide,
    missing_identity_empty dist1 [[mkRat 3 10]] [] 10 0 [[0]] [0] 0
      (by decide) (by decide) (by decide)
      (by rw [← threshold_eq]; decide)⟩

/-- Claim C8: the 100-frame 10-fps scenario with one face at frame 40 at
distance 0.3 from target 1 yields exactly one match event with identity
from the person map at key "1", confidence 0.7, frame "frame-0040" and
timestamp 4.0. -/
theorem scenario_single_match :
    (process_video dist1 videoC8 targetsC8 pmC8 (mkRat 1 2)).results =
      [{ timestamp := 4
         timestampFormatted := "0:04"
         confidence := 7 / 10
         distance := 3 / 10
         personId := (personMapGet pmC8 "1").personId.getD ""
         personName := (personMapGet pmC8 "1").name.getD ""
         frame := "frame-0040" }] := by
  have h7 : (7 : ℚ) / 10 = mkRat 7 10 := by rw [mkRat_eq_div]; norm_num
  have h3 : (3 : ℚ) / 10 = mkRat 3 10 := by rw [mkRat_eq_div]; norm_num
  rw [h7, h3]
  decide

/-- Claim C9: the encoder returns the first detected face's embedding when
at least one face is reported, a clean `none` when zero faces are reported,
and the same clean `none` when loading or processing the image raises. -/
theorem extract_first_or_none (e : Emb) (rest : List Emb) :
    extract_face_encoding (.faces (e :: rest)) = some e ∧
    extract_face_encoding (.faces []) = none ∧
    extract_face_encoding .loadFail = none :=
  ⟨rfl, rfl, rfl⟩

/-- Claim C10: with a native frame rate of 0 and at least one frame, the
frame skip computes to 1, the first sampled frame's timestamp division
raises (loop returns `none`), the catch-all absorbs it, and the call
returns an empty result (with the stream not released). -/
theorem zero_native_fps (dist : Emb → Emb → ℚ) (video : VideoCapture)
    (targets : List Emb) (pm : PersonMap) (fps : ℚ)
    (ho : video.opened = true) (hz : video.videoFps = 0)
    (hne : video.frames ≠ []) (hf : fps ≠ 0) :
    frame_skip_calc video.videoFps fps = 1 ∧
    (run_loop dist targets pm video.videoFps
      (frame_skip_calc video.videoFps fps) video.frames 0).2 = none ∧
    (process_video dist video targets pm fps).results = [] ∧
    (process_video dist video targets pm fps).released = false := by
  have h1 : frame_skip_calc video.videoFps fps = 1 := by
    rw [hz, frame_skip_calc, pyDiv_eq, zero_div]
    decide
  have h2 : (run_loop dist targets pm video.videoFps
      (frame_skip_calc video.videoFps fps) video.frames 0).2 = none := by
    rw [h1]
    cases hfr : video.frames with
    | nil => exact absurd hfr hne
    | cons f rest =>
      simp [run_loop, hz]
  refine ⟨h1, h2, ?_, ?_⟩
  · simp [process_video, ho, hf, h2]
  · simp [process_video, ho, hf, h2]

theorem zero_native_fps_witness :
    zeroFpsVideo.opened = true ∧ zeroFpsVideo.videoFps = 0 ∧
    zeroFpsVideo.frames ≠ [] ∧ (mkRat 1 2 : ℚ) ≠ 0 ∧
    (frame_skip_calc zeroFpsVideo.videoFps (mkRat 1 2) = 1 ∧
    (run_loop dist1 [] [] zeroFpsVideo.videoFps
      (frame_skip_calc zeroFpsVideo.videoFps (mkRat 1 2))
      zeroFpsVideo.frames 0).2 = none ∧
    (process_video dist1 zeroFpsVideo [] [] (mkRat 1 2)).results = [] ∧
    (process_video dist1 zeroFpsVideo [] [] (mkRat 1 2)).released = false) :=
  ⟨by decide, by decide, by decide, by decide,
    zero_native_fps dist1 zeroFpsVideo [] [] (mkRat 1 2)
      (by decide) (by decide) (by decide) (by decide)⟩
